import Mathlib

/-!
Verification of the bookmark state engine of the
`obsidian-plugin-bookmark-line-with-hotkeys` repository.

The repository ships several variants of the same plugin.  The definitions
below are shallow embeddings of the TypeScript functions:

* `BookmarkEntry`, `BookmarkTable` — the `settings.bookmarks` record
  (`Record<string, BookmarkEntry>` with `{ file, line, ch }` values),
  modelled as an association list from slot strings to entries.
* `setBookmark` — the toggle-aware `setBookmark` of `src/unnamed/part_000`
  (lines 141–175); the blocking confirm dialog is abstracted into a
  `confirmed : Bool` argument.
* `handleFileRename`, `handleFileDelete` — the vault rename/delete
  propagation loops of `src/main.ts` (lines 231–271).
* `resolvePosition`, `goToBookmark` — the jump command of `src/main.ts`
  (lines 153–191); the vault lookup and editor opening are abstracted as
  function arguments.
* `slotHighlightClass`, `applyLineHighlightsCM5`, `applyLineHighlights` —
  the highlight projection of `src/main.ts` (lines 305–437); the CM5
  `addLineClass`/`removeLineClass` calls are reified as a `HighlightOp`
  trace.
* `requestRender`, `completeRender` — the render coalescing of
  `BookmarkListView.requestRender` (`src/main.ts` lines 667–678).
* `getBookmarkPreview` with `splitLines`/`trimString` — the preview
  computation of `src/main.ts` (lines 444–460).

JavaScript numbers holding line/column indices are modelled as `Int`
(persisted data may hold arbitrary integral values); vault and editor
collaborators are modelled as explicit function parameters.
-/

namespace BookmarkPlugin

/-- Entry stored in settings, from `interface BookmarkEntry { file; line; ch }`
(`src/main.ts` lines 46–50). -/
structure BookmarkEntry where
  file : String
  line : Int
  ch : Int
  deriving DecidableEq, Repr

/-- The `settings.bookmarks` record (`Record<string, BookmarkEntry>`),
as an association list from slot strings to entries. -/
abbrev BookmarkTable := List (String × BookmarkEntry)

/-- Reading `this.settings.bookmarks[slot]` (returns `undefined` when unbound). -/
def getBookmark (slot : String) (t : BookmarkTable) : Option BookmarkEntry :=
  List.lookup slot t

/-- Writing `this.settings.bookmarks[slot] = e`: overwrite in place, or append
a fresh key. -/
def setEntry (slot : String) (e : BookmarkEntry) : BookmarkTable → BookmarkTable
  | [] => [(slot, e)]
  | (k, v) :: rest =>
    if k = slot then (k, e) :: rest else (k, v) :: setEntry slot e rest

/-- Effect of `delete this.settings.bookmarks[slot]`. -/
def deleteEntry (slot : String) : BookmarkTable → BookmarkTable
  | [] => []
  | (k, v) :: rest =>
    if k = slot then deleteEntry slot rest else (k, v) :: deleteEntry slot rest

/-- Outcome of the set-bookmark command. -/
inductive SetOutcome where
  | removed
  | cancelled
  | saved
  | updated
  deriving DecidableEq, Repr

/-- The toggle-aware `setBookmark` of `src/unnamed/part_000` lines 141–175:
an exactly identical existing entry triggers the confirm-then-delete path,
a different existing entry is overwritten silently, an unbound slot is bound.
The user's answer to the `confirmBookmarkRemoval` modal is the `confirmed`
argument. -/
def setBookmark (slot filePath : String) (cursorLine cursorCh : Int)
    (confirmed : Bool) (bookmarks : BookmarkTable) : SetOutcome × BookmarkTable :=
  match getBookmark slot bookmarks with
  | some existing =>
    if existing.file = filePath ∧ existing.line = cursorLine ∧ existing.ch = cursorCh then
      if confirmed then
        (SetOutcome.removed, deleteEntry slot bookmarks)
      else
        (SetOutcome.cancelled, bookmarks)
    else
      (SetOutcome.updated, setEntry slot ⟨filePath, cursorLine, cursorCh⟩ bookmarks)
  | none => (SetOutcome.saved, setEntry slot ⟨filePath, cursorLine, cursorCh⟩ bookmarks)

/-- The rename-propagation loop of `handleFileRename` (`src/main.ts`
lines 231–250): every entry whose `file` equals `oldPath` is rewritten in
place to `newPath`; `changed` records whether any entry matched. -/
def handleFileRename (newPath oldPath : String) (bookmarks : BookmarkTable) :
    Bool × BookmarkTable :=
  (bookmarks.any fun p => p.2.file == oldPath,
   bookmarks.map fun p =>
     if p.2.file = oldPath then (p.1, { p.2 with file := newPath }) else p)

/-- The delete-propagation loop of `handleFileDelete` (`src/main.ts`
lines 252–271): every entry whose `file` equals the deleted path is removed;
`changed` records whether any entry matched. -/
def handleFileDelete (path : String) (bookmarks : BookmarkTable) :
    Bool × BookmarkTable :=
  (bookmarks.any fun p => p.2.file == path,
   bookmarks.filter fun p => !(p.2.file == path))

/-- Position clamping of `goToBookmark` (`src/main.ts` lines 181–185):
`maxLineIndex = max(lineCount - 1, 0)`, `line = min(max(line, 0), maxLineIndex)`,
`lineLength = getLine(line)?.length ?? 0`, `ch = min(max(ch, 0), lineLength)`.
The live document is its list of lines. -/
def resolvePosition (bmLine bmCh : Int) (docLines : List String) : Nat × Nat :=
  let maxLineIndex : Int := max ((docLines.length : Int) - 1) 0
  let line : Int := min (max bmLine 0) maxLineIndex
  let lineLength : Int := ((docLines.get? line.toNat).map fun s => (s.length : Int)).getD 0
  let ch : Int := min (max bmCh 0) lineLength
  (line.toNat, ch.toNat)

/-- Outcome of the jump command. -/
inductive JumpOutcome where
  | notSet
  | missingFile
  | noMarkdownView
  | jumped (line ch : Nat)
  deriving DecidableEq, Repr

/-- The jump command `goToBookmark` (`src/main.ts` lines 153–191).
`fileExists` models `getAbstractFileByPath(...) instanceof TFile`;
`openEditor` models `leaf.openFile` followed by obtaining a markdown view
(`none` when no markdown editor could be opened), yielding the opened
document's lines.  The bookmark table is returned unchanged on every path. -/
def goToBookmark (slot : String) (bookmarks : BookmarkTable)
    (fileExists : String → Bool) (openEditor : String → Option (List String)) :
    JumpOutcome × BookmarkTable :=
  match getBookmark slot bookmarks with
  | none => (JumpOutcome.notSet, bookmarks)
  | some bookmark =>
    if fileExists bookmark.file then
      match openEditor bookmark.file with
      | none => (JumpOutcome.noMarkdownView, bookmarks)
      | some docLines =>
        let pos := resolvePosition bookmark.line bookmark.ch docLines
        (JumpOutcome.jumped pos.1 pos.2, bookmarks)
    else
      (JumpOutcome.missingFile, bookmarks)

/-- Per-slot CSS class, from `slotHighlightClass` (`src/main.ts` lines 435–437). -/
def slotHighlightClass (slot : String) : String :=
  "bookmark-line-highlight-slot-" ++ slot

/-- Splitting file content on the regex `/\r?\n/`, character by character
(`content.split(/\r?\n/)` in `getBookmarkPreview`). -/
def splitLinesAux : List Char → List Char → List String
  | [], acc => [String.mk acc.reverse]
  | '\r' :: '\n' :: rest, acc => String.mk acc.reverse :: splitLinesAux rest []
  | '\n' :: rest, acc => String.mk acc.reverse :: splitLinesAux rest []
  | c :: rest, acc => splitLinesAux rest (c :: acc)

/-- Lines of a file content string, split on `/\r?\n/`. -/
def splitLines (s : String) : List String :=
  splitLinesAux s.data []

/-- JavaScript `String.prototype.trim`: strip whitespace from both ends. -/
def trimString (s : String) : String :=
  String.mk (((s.data.dropWhile Char.isWhitespace).reverse.dropWhile Char.isWhitespace).reverse)

/-- The preview computation `getBookmarkPreview` (`src/main.ts` lines 444–460).
`fileExists` models the `instanceof TFile` vault lookup; `readFile` models
`vault.cachedRead`, with `none` standing for a thrown read error.
`lines[entry.line]` is `undefined` for a negative or out-of-range index,
and `line?.trim() ?? ''` turns that into the empty string. -/
def getBookmarkPreview (entry : BookmarkEntry) (fileExists : String → Bool)
    (readFile : String → Option String) : Option String :=
  if fileExists entry.file then
    match readFile entry.file with
    | some content =>
      let lines := splitLines content
      let line : Option String :=
        if entry.line < 0 then none else lines.get? entry.line.toNat
      some ((line.map trimString).getD "")
    | none => none
  else
    none

/-- A reified CM5 line-class call: `addLineClass(line, 'wrap', cls)` or
`removeLineClass(line, 'wrap', cls)`. -/
inductive HighlightOp where
  | add (line : Nat) (cls : String)
  | remove (line : Nat) (cls : String)
  deriving DecidableEq, Repr

/-- Line a highlight operation touches. -/
def HighlightOp.lineOf : HighlightOp → Nat
  | HighlightOp.add l _ => l
  | HighlightOp.remove l _ => l

/-- A `Map<number, Set<string>>` from line to the slots highlighted there,
as an association list in insertion order. -/
abbrev LineMap := List (Nat × List String)

/-- Operations the first loop of `applyLineHighlightsCM5` emits for one entry
of `lineMap`: the generic class is added when the line was absent before, and
a slot class is added when that slot was absent from the line before. -/
def addOpsFor (previousLineMap : LineMap) (p : Nat × List String) : List HighlightOp :=
  (if (List.lookup p.1 previousLineMap).isSome then [] else
    [HighlightOp.add p.1 "bookmark-line-highlight"]) ++
  (let previousSlots := (List.lookup p.1 previousLineMap).getD []
   p.2.filterMap fun slot =>
     if slot ∈ previousSlots then none
     else some (HighlightOp.add p.1 (slotHighlightClass slot)))

/-- Operations the second loop of `applyLineHighlightsCM5` emits for one entry
of `previousLineMap`: a line absent from the new map is fully cleared; a line
still present loses exactly the slot classes that disappeared (plus the
generic class when the new slot set is empty). -/
def removeOpsFor (lineMap : LineMap) (p : Nat × List String) : List HighlightOp :=
  match List.lookup p.1 lineMap with
  | none =>
    HighlightOp.remove p.1 "bookmark-line-highlight" ::
      p.2.map fun slot => HighlightOp.remove p.1 (slotHighlightClass slot)
  | some nextSlots =>
    (p.2.filterMap fun slot =>
      if slot ∈ nextSlots then none
      else some (HighlightOp.remove p.1 (slotHighlightClass slot))) ++
    (if nextSlots.isEmpty then [HighlightOp.remove p.1 "bookmark-line-highlight"] else [])

/-- The reconciliation `applyLineHighlightsCM5` (`src/main.ts` lines 350–388),
as the trace of `addLineClass`/`removeLineClass` calls it performs: one pass
over the new `lineMap` emitting additions, then one pass over
`previousLineMap` emitting removals. -/
def applyLineHighlightsCM5 (lineMap previousLineMap : LineMap) : List HighlightOp :=
  lineMap.flatMap (addOpsFor previousLineMap) ++
    previousLineMap.flatMap (removeOpsFor lineMap)

/-- Operations of a trace that touch a given line. -/
def opsAt (l : Nat) (ops : List HighlightOp) : List HighlightOp :=
  ops.filter fun op => op.lineOf == l

/-- Numeric value of a slot key, as in the comparator
`(a, b) => Number(a[0]) - Number(b[0])`. -/
def slotNumber (slot : String) : Nat :=
  slot.toNat?.getD 0

/-- Stable insertion of one binding into a slot-sorted table. -/
def insertBySlot (p : String × BookmarkEntry) : BookmarkTable → BookmarkTable
  | [] => [p]
  | q :: rest =>
    if slotNumber p.1 < slotNumber q.1 then p :: q :: rest else q :: insertBySlot p rest

/-- The accessor `getSortedBookmarks` (`src/main.ts` lines 439–442):
`Object.entries(bookmarks)` sorted by ascending numeric slot. -/
def getSortedBookmarks (bookmarks : BookmarkTable) : BookmarkTable :=
  bookmarks.foldr insertBySlot []

/-- Line clamping inside `applyLineHighlights` (`src/main.ts` line 331):
`safeLine = min(max(entry.line, 0), max(lineCount - 1, 0))`. -/
def clampLine (line : Int) (lineCount : Nat) : Nat :=
  (min (max line 0) (max ((lineCount : Int) - 1) 0)).toNat

/-- Insertion of a slot into the per-line slot set, as
`lineMap.get(safeLine)` / `Set.add(slot)` does: the line key is created at
the end on first use, and a slot already present is not duplicated. -/
def addToLineMap (m : LineMap) (line : Nat) (slot : String) : LineMap :=
  match m with
  | [] => [(line, [slot])]
  | (l, slots) :: rest =>
    if l = line then
      (l, if slot ∈ slots then slots else slots ++ [slot]) :: rest
    else
      (l, slots) :: addToLineMap rest line slot

/-- The grouping loop of `applyLineHighlights` (`src/main.ts` lines 330–338):
every bookmark of the active file is grouped under its clamped line. -/
def buildLineMap (bms : BookmarkTable) (lineCount : Nat) : LineMap :=
  bms.foldl (fun m p => addToLineMap m (clampLine p.2.line lineCount) p.1) []

/-- Mutable highlight bookkeeping of the plugin: the bookmark table, the
`lineHighlights` per-editor map (editors identified by a number), and
`lastHighlightedEditor`. -/
structure HighlightState where
  bookmarks : BookmarkTable
  lineHighlights : List (Nat × LineMap)
  lastHighlightedEditor : Option Nat
  deriving Repr

/-- Removal-call trace of `clearLineHighlights` for one stored line map. -/
def clearOps (lineMap : LineMap) : List HighlightOp :=
  lineMap.flatMap fun p =>
    HighlightOp.remove p.1 "bookmark-line-highlight" ::
      p.2.map fun slot => HighlightOp.remove p.1 (slotHighlightClass slot)

/-- Effect of `this.lineHighlights.delete(editor)`. -/
def eraseEditor (editor : Nat) (hs : List (Nat × LineMap)) : List (Nat × LineMap) :=
  hs.filter fun q => !(q.1 == editor)

/-- Effect of `this.lineHighlights.set(editor, lineMap)`. -/
def setEditorMap (editor : Nat) (m : LineMap) : List (Nat × LineMap) → List (Nat × LineMap)
  | [] => [(editor, m)]
  | (k, v) :: rest =>
    if k = editor then (k, m) :: rest else (k, v) :: setEditorMap editor m rest

/-- The cleanup `clearLineHighlights` (`src/main.ts` lines 414–433):
emit removals for every recorded class of the editor (on the CM5 path) and
drop the editor from `lineHighlights`. -/
def clearLineHighlights (st : HighlightState) (editor : Nat) (hasCM : Bool) :
    HighlightState × List HighlightOp :=
  let ops :=
    if hasCM then
      match List.lookup editor st.lineHighlights with
      | some m => clearOps m
      | none => []
    else []
  ({ st with lineHighlights := eraseEditor editor st.lineHighlights }, ops)

/-- The projection `applyLineHighlights` (`src/main.ts` lines 305–348) on the
CM5 path: clear a previously highlighted different editor, filter the sorted
bookmarks to the active file, bail out without state when the editor exposes
no CodeMirror instance, clear everything when no bookmark targets the file,
and otherwise reconcile the freshly built line map against the previous one. -/
def applyLineHighlights (st : HighlightState) (editor : Nat) (filePath : String)
    (hasCM : Bool) (lineCount : Nat) : HighlightState × List HighlightOp :=
  let previousLineMap := (List.lookup editor st.lineHighlights).getD []
  let cleared :=
    match st.lastHighlightedEditor with
    | some last => if last ≠ editor then clearLineHighlights st last hasCM else (st, [])
    | none => (st, [])
  let st1 := cleared.1
  let ops1 := cleared.2
  let bms := (getSortedBookmarks st1.bookmarks).filter fun p => p.2.file == filePath
  if !hasCM then
    ({ st1 with lineHighlights := eraseEditor editor st1.lineHighlights }, ops1)
  else if bms.isEmpty then
    let c := clearLineHighlights st1 editor hasCM
    ({ c.1 with lastHighlightedEditor := some editor }, ops1 ++ c.2)
  else
    let lineMap := buildLineMap bms lineCount
    let ops2 := applyLineHighlightsCM5 lineMap previousLineMap
    ({ st1 with
        lineHighlights := setEditorMap editor lineMap st1.lineHighlights,
        lastHighlightedEditor := some editor },
     ops1 ++ ops2)

/-- A resolution step: a jump command or a highlight projection, with its
host-provided context. -/
inductive ResolveStep where
  | jump (slot : String) (fileExists : String → Bool)
      (openEditor : String → Option (List String))
  | project (editor : Nat) (filePath : String) (hasCM : Bool) (lineCount : Nat)

/-- State reached after one resolution step. -/
def runResolveStep (st : HighlightState) : ResolveStep → HighlightState
  | ResolveStep.jump slot fileExists openEditor =>
    { st with bookmarks := (goToBookmark slot st.bookmarks fileExists openEditor).2 }
  | ResolveStep.project editor filePath hasCM lineCount =>
    (applyLineHighlights st editor filePath hasCM lineCount).1

/-- Render bookkeeping of one `BookmarkListView` observer: whether a
`renderPromise` is pending, and how many renders have been started and have
completed. -/
structure ObserverState where
  renderInFlight : Bool
  rendersStarted : Nat
  rendersCompleted : Nat
  deriving DecidableEq, Repr

/-- The coalescing `requestRender` (`src/main.ts` lines 667–678): a render is
started only when no `renderPromise` is pending; otherwise the call returns
the in-flight promise and starts nothing. -/
def requestRender (s : ObserverState) : ObserverState :=
  if s.renderInFlight then s
  else { s with renderInFlight := true, rendersStarted := s.rendersStarted + 1 }

/-- Settlement of the in-flight render promise: the `finally` handler resets
`renderPromise` to `null`. -/
def completeRender (s : ObserverState) : ObserverState :=
  if s.renderInFlight then
    { s with renderInFlight := false, rendersCompleted := s.rendersCompleted + 1 }
  else s

/-! Helper lemmas about the bookmark table. -/

theorem lookup_cons {α β : Type} [BEq α] [LawfulBEq α] [DecidableEq α]
    (a k : α) (v : β) (t : List (α × β)) :
    List.lookup a ((k, v) :: t) = if a = k then some v else List.lookup a t := by
  by_cases h : a = k
  · subst h; simp [List.lookup]
  · simp [List.lookup, beq_eq_false_iff_ne.mpr h, h]

theorem getBookmark_deleteEntry_self (slot : String) (t : BookmarkTable) :
    getBookmark slot (deleteEntry slot t) = none := by
  induction t with
  | nil => rfl
  | cons q rest ih =>
    obtain ⟨k, v⟩ := q
    by_cases h : k = slot
    · simpa [deleteEntry, h] using ih
    · simpa [deleteEntry, getBookmark, lookup_cons, h, Ne.symm h] using ih

theorem lookup_eq_none_of_not_mem_keys {α β : Type} [BEq α] [LawfulBEq α] [DecidableEq α]
    (a : α) (t : List (α × β)) (h : a ∉ t.map Prod.fst) : List.lookup a t = none := by
  induction t with
  | nil => rfl
  | cons q rest ih =>
    obtain ⟨k, v⟩ := q
    simp only [List.map_cons, List.mem_cons, not_or] at h
    simpa [lookup_cons, h.1] using ih h.2

theorem getBookmark_handleFileRename (newPath oldPath slot : String) (t : BookmarkTable) :
    getBookmark slot (handleFileRename newPath oldPath t).2
      = (getBookmark slot t).map fun bm =>
          if bm.file = oldPath then { bm with file := newPath } else bm := by
  induction t with
  | nil => rfl
  | cons q rest ih =>
    obtain ⟨k, v⟩ := q
    by_cases hk : slot = k <;> by_cases hv : v.file = oldPath <;>
      simp only [handleFileRename, List.map_cons] at ih ⊢ <;>
        simp [getBookmark, lookup_cons, hk, hv] <;>
          simpa [getBookmark, lookup_cons, hk, hv] using ih

theorem getBookmark_handleFileDelete (path slot : String) (t : BookmarkTable)
    (hnd : (t.map Prod.fst).Nodup) :
    getBookmark slot (handleFileDelete path t).2
      = match getBookmark slot t with
        | some bm => if bm.file = path then none else some bm
        | none => none := by
  induction t with
  | nil => rfl
  | cons q rest ih =>
    obtain ⟨k, v⟩ := q
    simp only [List.map_cons, List.nodup_cons] at hnd
    by_cases hk : slot = k
    · subst hk
      by_cases hv : v.file = path
      · have hsub : List.lookup slot (handleFileDelete path rest).2 = none := by
          refine lookup_eq_none_of_not_mem_keys slot _ fun hmem => hnd.1 ?_
          simp only [handleFileDelete, List.mem_map] at hmem ⊢
          obtain ⟨p, hp, hps⟩ := hmem
          exact ⟨p, List.mem_of_mem_filter hp, hps⟩
        simp [handleFileDelete, getBookmark, lookup_cons, hv] at hsub ⊢
        simpa [handleFileDelete] using hsub
      · simp [handleFileDelete, getBookmark, lookup_cons, hv]
    · by_cases hv : v.file = path <;>
        simp only [handleFileDelete] at ih ⊢ <;>
          simpa [getBookmark, lookup_cons, hk, hv] using ih hnd.2

/-! Claim theorems C1, C3, C4, C5. -/

/-- C1: when slot `s` is bound to entry `e` and the set-bookmark request
carries exactly the same `(documentId, line, column)` triple, `setBookmark`
takes the toggle path: a confirmed toggle unbinds the slot
(`get(s) == null`), and a declined confirmation leaves the whole table, and
in particular `get(s) == e`, unchanged. -/
theorem setBookmark_toggle_spec (slot : String) (t : BookmarkTable) (e : BookmarkEntry)
    (hbound : getBookmark slot t = some e) :
    getBookmark slot (setBookmark slot e.file e.line e.ch true t).2 = none ∧
    (setBookmark slot e.file e.line e.ch false t).2 = t ∧
    getBookmark slot (setBookmark slot e.file e.line e.ch false t).2 = some e := by
  refine ⟨?_, ?_, ?_⟩ <;>
    simp [setBookmark, hbound, getBookmark_deleteEntry_self]

/-- C1 witness: a concrete toggle on slot 1 bound to line 5 of `a.md`. -/
theorem setBookmark_toggle_spec_witness :
    getBookmark "1"
      (setBookmark "1" "a.md" 5 0 true [("1", ⟨"a.md", 5, 0⟩)]).2 = none ∧
    (setBookmark "1" "a.md" 5 0 false [("1", ⟨"a.md", 5, 0⟩)]).2
      = [("1", ⟨"a.md", 5, 0⟩)] ∧
    getBookmark "1"
      (setBookmark "1" "a.md" 5 0 false [("1", ⟨"a.md", 5, 0⟩)]).2
      = some ⟨"a.md", 5, 0⟩ :=
  setBookmark_toggle_spec "1" [("1", ⟨"a.md", 5, 0⟩)] ⟨"a.md", 5, 0⟩ (by decide)

/-- C3: the rename propagation rewrites `file` to the new path in place on
every entry matching the old path (preserving slot bindings, keys and
line/column), leaves non-matching entries unchanged, and reports
`changed = false` exactly when no entry matched. -/
theorem handleFileRename_spec (newPath oldPath : String) (t : BookmarkTable) :
    (∀ slot, getBookmark slot (handleFileRename newPath oldPath t).2
        = (getBookmark slot t).map fun bm =>
            if bm.file = oldPath then { bm with file := newPath } else bm) ∧
    ((handleFileRename newPath oldPath t).2.map Prod.fst = t.map Prod.fst) ∧
    ((handleFileRename newPath oldPath t).1 = false ↔ ∀ p ∈ t, p.2.file ≠ oldPath) := by
  refine ⟨fun slot => getBookmark_handleFileRename newPath oldPath slot t, ?_, ?_⟩
  · simp only [handleFileRename, List.map_map]
    refine List.map_congr_left fun p _ => ?_
    by_cases h : p.2.file = oldPath <;> simp [h]
  · simp [handleFileRename, List.any_eq_true]

/-- C4: the delete propagation removes exactly the entries whose `file`
equals the deleted path (other slots keep their entries), and reports
`changed = true` iff at least one entry matched. -/
theorem handleFileDelete_spec (path : String) (t : BookmarkTable)
    (hnd : (t.map Prod.fst).Nodup) :
    (∀ slot, getBookmark slot (handleFileDelete path t).2
        = match getBookmark slot t with
          | some bm => if bm.file = path then none else some bm
          | none => none) ∧
    ((handleFileDelete path t).1 = true ↔ ∃ p ∈ t, p.2.file = path) := by
  refine ⟨fun slot => getBookmark_handleFileDelete path slot t hnd, ?_⟩
  simp [handleFileDelete, List.any_eq_true]

/-- C4 witness: deleting `a.md` removes slot 1's entry, keeps slot 2's, and
reports a change. -/
theorem handleFileDelete_spec_witness :
    getBookmark "1"
      (handleFileDelete "a.md" [("1", ⟨"a.md", 0, 0⟩), ("2", ⟨"b.md", 1, 2⟩)]).2 = none ∧
    getBookmark "2"
      (handleFileDelete "a.md" [("1", ⟨"a.md", 0, 0⟩), ("2", ⟨"b.md", 1, 2⟩)]).2
      = some ⟨"b.md", 1, 2⟩ ∧
    (handleFileDelete "a.md" [("1", ⟨"a.md", 0, 0⟩), ("2", ⟨"b.md", 1, 2⟩)]).1 = true := by
  have h := handleFileDelete_spec "a.md"
    [("1", ⟨"a.md", 0, 0⟩), ("2", ⟨"b.md", 1, 2⟩)] (by decide)
  exact ⟨by simpa using h.1 "1", by simpa using h.1 "2",
    h.2.mpr ⟨("1", ⟨"a.md", 0, 0⟩), by decide, rfl⟩⟩

/-- C5: jumping to a bound slot whose document cannot be located reports the
missing-file outcome and stops; the table is returned unchanged and the
dangling entry is still bound afterwards. -/
theorem goToBookmark_missing_spec (slot : String) (t : BookmarkTable) (e : BookmarkEntry)
    (fileExists : String → Bool) (openEditor : String → Option (List String))
    (hbound : getBookmark slot t = some e) (hmiss : fileExists e.file = false) :
    goToBookmark slot t fileExists openEditor = (JumpOutcome.missingFile, t) ∧
    getBookmark slot (goToBookmark slot t fileExists openEditor).2 = some e := by
  constructor <;> simp [goToBookmark, hbound, hmiss]

/-- C5 witness: slot 1 points at a deleted `a.md`; the jump reports missing
and the table still contains slot 1. -/
theorem goToBookmark_missing_spec_witness :
    goToBookmark "1" [("1", ⟨"a.md", 5, 0⟩)] (fun _ => false) (fun _ => none)
      = (JumpOutcome.missingFile, [("1", ⟨"a.md", 5, 0⟩)]) ∧
    getBookmark "1"
      (goToBookmark "1" [("1", ⟨"a.md", 5, 0⟩)] (fun _ => false) (fun _ => none)).2
      = some ⟨"a.md", 5, 0⟩ :=
  goToBookmark_missing_spec "1" [("1", ⟨"a.md", 5, 0⟩)] ⟨"a.md", 5, 0⟩
    (fun _ => false) (fun _ => none) (by decide) rfl

/-- C2: resolution clamps the stored line into `[0, documentLineCount - 1]`
(line 0 on a 0-line document) and the stored column into
`[0, length of the resolved line]`: the first component is 0 on an empty
document, within bounds otherwise, preserved when already in range and
clamped to the last line when too large; the second component never exceeds
the resolved line's length, is preserved when in range, and is clamped to
that length when too large. -/
theorem resolvePosition_clamp_spec (bmLine bmCh : Int) (docLines : List String) :
    (docLines.length = 0 → (resolvePosition bmLine bmCh docLines).1 = 0) ∧
    (docLines.length ≠ 0 → (resolvePosition bmLine bmCh docLines).1 < docLines.length) ∧
    (0 ≤ bmLine → bmLine < (docLines.length : Int) →
      ((resolvePosition bmLine bmCh docLines).1 : Int) = bmLine) ∧
    ((docLines.length : Int) - 1 < bmLine → docLines.length ≠ 0 →
      (resolvePosition bmLine bmCh docLines).1 = docLines.length - 1) ∧
    ((resolvePosition bmLine bmCh docLines).2 : Int) ≤
      (((docLines.get? (resolvePosition bmLine bmCh docLines).1).map fun s =>
        (s.length : Int)).getD 0) ∧
    (0 ≤ bmCh →
      bmCh ≤ (((docLines.get? (resolvePosition bmLine bmCh docLines).1).map fun s =>
        (s.length : Int)).getD 0) →
      ((resolvePosition bmLine bmCh docLines).2 : Int) = bmCh) ∧
    ((((docLines.get? (resolvePosition bmLine bmCh docLines).1).map fun s =>
        (s.length : Int)).getD 0) < bmCh →
      ((resolvePosition bmLine bmCh docLines).2 : Int) =
        (((docLines.get? (resolvePosition bmLine bmCh docLines).1).map fun s =>
          (s.length : Int)).getD 0)) := by
  have h1 : (resolvePosition bmLine bmCh docLines).1
      = (min (max bmLine 0) (max ((docLines.length : Int) - 1) 0)).toNat := rfl
  have h2 : (resolvePosition bmLine bmCh docLines).2
      = (min (max bmCh 0)
          (((docLines.get? (resolvePosition bmLine bmCh docLines).1).map fun s =>
            (s.length : Int)).getD 0)).toNat := rfl
  set L : Int := ((docLines.get? (resolvePosition bmLine bmCh docLines).1).map fun s =>
    (s.length : Int)).getD 0 with hL
  have hLnn : 0 ≤ L := by
    rw [hL]
    cases docLines.get? (resolvePosition bmLine bmCh docLines).1 <;> simp
  clear_value L
  refine ⟨?_, ?_, ?_, ?_, ?_, ?_, ?_⟩ <;> (try rw [h2]) <;> (try rw [h1]) <;> omega

/-- C2 witness: line 100 on a 10-line document resolves to line 9, column 50
on a line of length 5 resolves to column 5, and a 0-line document resolves
to line 0. -/
theorem resolvePosition_clamp_spec_witness :
    (resolvePosition 100 50 (List.replicate 10 "abcde")).1 = 9 ∧
    (resolvePosition 100 50 (List.replicate 10 "abcde")).2 = 5 ∧
    (resolvePosition 0 0 []).1 = 0 := by
  have h1 := resolvePosition_clamp_spec 100 50 (List.replicate 10 "abcde")
  have h2 := resolvePosition_clamp_spec 0 0 []
  refine ⟨?_, ?_, h2.1 rfl⟩
  · have := h1.2.2.2.1 (by decide) (by decide)
    simpa using this
  · have h3 := h1.2.2.2.2.2.2 (by decide)
    have h4 : ((resolvePosition 100 50 (List.replicate 10 "abcde")).2 : Int) = 5 := by
      rw [h3]; decide
    exact_mod_cast h4

/-! Helper lemmas for the frame property C9. -/

theorem goToBookmark_table (slot : String) (bookmarks : BookmarkTable)
    (fileExists : String → Bool) (openEditor : String → Option (List String)) :
    (goToBookmark slot bookmarks fileExists openEditor).2 = bookmarks := by
  unfold goToBookmark
  cases getBookmark slot bookmarks with
  | none => rfl
  | some bm =>
    by_cases h : fileExists bm.file
    · simp only [h, if_true]
      cases openEditor bm.file <;> rfl
    · simp [h]

theorem clearLineHighlights_bookmarks (st : HighlightState) (editor : Nat) (hasCM : Bool) :
    (clearLineHighlights st editor hasCM).1.bookmarks = st.bookmarks := rfl

theorem applyLineHighlights_bookmarks (st : HighlightState) (editor : Nat)
    (filePath : String) (hasCM : Bool) (lineCount : Nat) :
    (applyLineHighlights st editor filePath hasCM lineCount).1.bookmarks = st.bookmarks := by
  unfold applyLineHighlights
  cases st.lastHighlightedEditor <;>
    simp only [clearLineHighlights] <;> split_ifs <;> rfl

theorem runResolveStep_bookmarks (st : HighlightState) (s : ResolveStep) :
    (runResolveStep st s).bookmarks = st.bookmarks := by
  cases s with
  | jump slot fileExists openEditor =>
    simp [runResolveStep, goToBookmark_table]
  | project editor filePath hasCM lineCount =>
    simpa [runResolveStep] using
      applyLineHighlights_bookmarks st editor filePath hasCM lineCount

/-- C9: resolution never mutates the stored entries: a jump returns the
bookmark table unchanged on every path, a highlight projection leaves the
`bookmarks` field of the plugin state untouched, and any sequence of such
resolve steps preserves the table (hence every stored line and column stays
exactly as authored). -/
theorem resolve_preserves_bookmarks (steps : List ResolveStep) (st : HighlightState) :
    ((steps.foldl runResolveStep st).bookmarks = st.bookmarks) ∧
    (∀ slot bookmarks fileExists openEditor,
      (goToBookmark slot bookmarks fileExists openEditor).2 = bookmarks) ∧
    (∀ st' editor filePath hasCM lineCount,
      (applyLineHighlights st' editor filePath hasCM lineCount).1.bookmarks
        = st'.bookmarks) := by
  refine ⟨?_, goToBookmark_table, applyLineHighlights_bookmarks⟩
  induction steps generalizing st with
  | nil => rfl
  | cons s rest ih => rw [List.foldl_cons, ih, runResolveStep_bookmarks]

/-! Helper lemmas for the reconciliation property C6. -/

theorem opsAt_append (l : Nat) (xs ys : List HighlightOp) :
    opsAt l (xs ++ ys) = opsAt l xs ++ opsAt l ys := by
  simp [opsAt, List.filter_append]

theorem opsAt_eq_self (l : Nat) (ops : List HighlightOp) (h : ∀ op ∈ ops, op.lineOf = l) :
    opsAt l ops = ops :=
  List.filter_eq_self.2 fun op hop => by simp [h op hop]

theorem opsAt_eq_nil (l : Nat) (ops : List HighlightOp) (h : ∀ op ∈ ops, op.lineOf ≠ l) :
    opsAt l ops = [] :=
  List.filter_eq_nil_iff.2 fun op hop => by simp [h op hop]

theorem mem_addOpsFor_lineOf (prev : LineMap) (p : Nat × List String) (op : HighlightOp)
    (h : op ∈ addOpsFor prev p) : op.lineOf = p.1 := by
  simp only [addOpsFor, List.mem_append, List.mem_filterMap] at h
  rcases h with h | ⟨s, hs, hsome⟩
  · split at h <;> simp_all [HighlightOp.lineOf]
  · split at hsome
    · simp_all
    · obtain rfl := Option.some.inj hsome
      rfl

theorem mem_removeOpsFor_lineOf (lm : LineMap) (p : Nat × List String) (op : HighlightOp)
    (h : op ∈ removeOpsFor lm p) : op.lineOf = p.1 := by
  unfold removeOpsFor at h
  split at h
  · rcases List.mem_cons.1 h with h | h
    · subst h; rfl
    · obtain ⟨s, hs, hmap⟩ := List.mem_map.1 h
      rw [← hmap]; rfl
  · simp only [List.mem_append, List.mem_filterMap] at h
    rcases h with ⟨s, hs, hsome⟩ | h
    · split at hsome <;> simp_all
      rw [← hsome]; rfl
    · split at h <;> simp_all [HighlightOp.lineOf]

theorem opsAt_keyed_flatMap (l : Nat) (m : LineMap) (g : Nat × List String → List HighlightOp)
    (hg : ∀ p op, op ∈ g p → op.lineOf = p.1)
    (hnd : (m.map Prod.fst).Nodup) :
    opsAt l (m.flatMap g)
      = match List.lookup l m with
        | some s => g (l, s)
        | none => [] := by
  induction m with
  | nil => rfl
  | cons q rest ih =>
    obtain ⟨k, v⟩ := q
    simp only [List.map_cons, List.nodup_cons] at hnd
    rw [List.flatMap_cons, opsAt_append]
    by_cases hk : l = k
    · subst hk
      rw [lookup_cons, if_pos rfl,
        opsAt_eq_self l _ (fun op hop => hg (l, v) op hop),
        ih hnd.2, lookup_eq_none_of_not_mem_keys l rest hnd.1]
      simp
    · rw [lookup_cons, if_neg hk,
        opsAt_eq_nil l _ (fun op hop => by rw [hg (k, v) op hop]; exact Ne.symm hk),
        ih hnd.2]
      simp

theorem filterMap_mem_filter (slots banned : List String) (f : String → HighlightOp) :
    (slots.filterMap fun s => if s ∈ banned then none else some (f s))
      = (slots.filter fun s => decide (s ∉ banned)).map f := by
  induction slots with
  | nil => rfl
  | cons a t ih => by_cases h : a ∈ banned <;> simp [h, ih]

theorem addOpsFor_of_none (prev : LineMap) (l : Nat) (slots : List String)
    (h : List.lookup l prev = none) :
    addOpsFor prev (l, slots)
      = HighlightOp.add l "bookmark-line-highlight" ::
          slots.map fun s => HighlightOp.add l (slotHighlightClass s) := by
  have hmap : (slots.filterMap fun s => some (HighlightOp.add l (slotHighlightClass s)))
      = slots.map fun s => HighlightOp.add l (slotHighlightClass s) := by
    induction slots with
    | nil => rfl
    | cons a t ih => simp [ih]
  simp [addOpsFor, h, hmap]

theorem addOpsFor_of_some (prev : LineMap) (l : Nat) (slots prevSlots : List String)
    (h : List.lookup l prev = some prevSlots) :
    addOpsFor prev (l, slots)
      = (slots.filter fun s => decide (s ∉ prevSlots)).map
          fun s => HighlightOp.add l (slotHighlightClass s) := by
  simp [addOpsFor, h, filterMap_mem_filter]

theorem removeOpsFor_of_none (lm : LineMap) (l : Nat) (slots : List String)
    (h : List.lookup l lm = none) :
    removeOpsFor lm (l, slots)
      = HighlightOp.remove l "bookmark-line-highlight" ::
          slots.map fun s => HighlightOp.remove l (slotHighlightClass s) := by
  simp [removeOpsFor, h]

theorem removeOpsFor_of_some (lm : LineMap) (l : Nat) (slots nextSlots : List String)
    (h : List.lookup l lm = some nextSlots) (hne : nextSlots ≠ []) :
    removeOpsFor lm (l, slots)
      = (slots.filter fun s => decide (s ∉ nextSlots)).map
          fun s => HighlightOp.remove l (slotHighlightClass s) := by
  simp [removeOpsFor, h, filterMap_mem_filter, hne]

/-- C6: the reconciliation emits a minimal delta.  With distinct line keys on
both maps: a line only in the previous map is fully cleared (generic class
plus every slot class removed); a line only in the new map gets the full set
added; a line in both (with a nonempty new slot set, as built by the
projection) gets additions exactly for the new-only slots and removals
exactly for the dropped slots; a line with identical slot sets in both maps,
and a line in neither map, receive zero add and zero remove calls. -/
theorem applyLineHighlightsCM5_minimal_delta (lineMap previousLineMap : LineMap)
    (hnd : (lineMap.map Prod.fst).Nodup)
    (hndPrev : (previousLineMap.map Prod.fst).Nodup) :
    (∀ l slots, List.lookup l lineMap = none → List.lookup l previousLineMap = some slots →
      opsAt l (applyLineHighlightsCM5 lineMap previousLineMap)
        = HighlightOp.remove l "bookmark-line-highlight" ::
            slots.map fun s => HighlightOp.remove l (slotHighlightClass s)) ∧
    (∀ l slots, List.lookup l lineMap = some slots → List.lookup l previousLineMap = none →
      opsAt l (applyLineHighlightsCM5 lineMap previousLineMap)
        = HighlightOp.add l "bookmark-line-highlight" ::
            slots.map fun s => HighlightOp.add l (slotHighlightClass s)) ∧
    (∀ l newSlots prevSlots, List.lookup l lineMap = some newSlots →
      List.lookup l previousLineMap = some prevSlots → newSlots ≠ [] →
      opsAt l (applyLineHighlightsCM5 lineMap previousLineMap)
        = ((newSlots.filter fun s => decide (s ∉ prevSlots)).map
            fun s => HighlightOp.add l (slotHighlightClass s)) ++
          ((prevSlots.filter fun s => decide (s ∉ newSlots)).map
            fun s => HighlightOp.remove l (slotHighlightClass s))) ∧
    (∀ l newSlots prevSlots, List.lookup l lineMap = some newSlots →
      List.lookup l previousLineMap = some prevSlots → newSlots ≠ [] →
      (∀ s, s ∈ newSlots ↔ s ∈ prevSlots) →
      opsAt l (applyLineHighlightsCM5 lineMap previousLineMap) = []) ∧
    (∀ l, List.lookup l lineMap = none → List.lookup l previousLineMap = none →
      opsAt l (applyLineHighlightsCM5 lineMap previousLineMap) = []) := by
  have hA : ∀ l, opsAt l (lineMap.flatMap (addOpsFor previousLineMap))
      = match List.lookup l lineMap with
        | some s => addOpsFor previousLineMap (l, s)
        | none => [] :=
    fun l => opsAt_keyed_flatMap l lineMap (addOpsFor previousLineMap)
      (fun p op h => mem_addOpsFor_lineOf previousLineMap p op h) hnd
  have hR : ∀ l, opsAt l (previousLineMap.flatMap (removeOpsFor lineMap))
      = match List.lookup l previousLineMap with
        | some s => removeOpsFor lineMap (l, s)
        | none => [] :=
    fun l => opsAt_keyed_flatMap l previousLineMap (removeOpsFor lineMap)
      (fun p op h => mem_removeOpsFor_lineOf lineMap p op h) hndPrev
  have hsplit : ∀ l, opsAt l (applyLineHighlightsCM5 lineMap previousLineMap)
      = opsAt l (lineMap.flatMap (addOpsFor previousLineMap))
        ++ opsAt l (previousLineMap.flatMap (removeOpsFor lineMap)) :=
    fun l => opsAt_append l _ _
  refine ⟨?_, ?_, ?_, ?_, ?_⟩
  · intro l slots hnew hprev
    have hAl : opsAt l (List.flatMap lineMap (addOpsFor previousLineMap)) = [] := by
      rw [hA l, hnew]
    have hRl : opsAt l (List.flatMap previousLineMap (removeOpsFor lineMap))
        = removeOpsFor lineMap (l, slots) := by rw [hR l, hprev]
    rw [hsplit l, hAl, hRl, removeOpsFor_of_none _ _ _ hnew]
    simp
  · intro l slots hnew hprev
    have hAl : opsAt l (List.flatMap lineMap (addOpsFor previousLineMap))
        = addOpsFor previousLineMap (l, slots) := by rw [hA l, hnew]
    have hRl : opsAt l (List.flatMap previousLineMap (removeOpsFor lineMap)) = [] := by
      rw [hR l, hprev]
    rw [hsplit l, hAl, hRl, addOpsFor_of_none _ _ _ hprev]
    simp
  · intro l newSlots prevSlots hnew hprev hne
    have hAl : opsAt l (List.flatMap lineMap (addOpsFor previousLineMap))
        = addOpsFor previousLineMap (l, newSlots) := by rw [hA l, hnew]
    have hRl : opsAt l (List.flatMap previousLineMap (removeOpsFor lineMap))
        = removeOpsFor lineMap (l, prevSlots) := by rw [hR l, hprev]
    rw [hsplit l, hAl, hRl, addOpsFor_of_some _ _ _ _ hprev,
      removeOpsFor_of_some _ _ _ _ hnew hne]
  · intro l newSlots prevSlots hnew hprev hne hiff
    have hAl : opsAt l (List.flatMap lineMap (addOpsFor previousLineMap))
        = addOpsFor previousLineMap (l, newSlots) := by rw [hA l, hnew]
    have hRl : opsAt l (List.flatMap previousLineMap (removeOpsFor lineMap))
        = removeOpsFor lineMap (l, prevSlots) := by rw [hR l, hprev]
    rw [hsplit l, hAl, hRl, addOpsFor_of_some _ _ _ _ hprev,
      removeOpsFor_of_some _ _ _ _ hnew hne]
    have e1 : (newSlots.filter fun s => decide (s ∉ prevSlots)) = [] :=
      List.filter_eq_nil_iff.2 fun s hs => by simp [(hiff s).1 hs]
    have e2 : (prevSlots.filter fun s => decide (s ∉ newSlots)) = [] :=
      List.filter_eq_nil_iff.2 fun s hs => by simp [(hiff s).2 hs]
    rw [e1, e2]
    rfl
  · intro l hnew hprev
    have hAl : opsAt l (List.flatMap lineMap (addOpsFor previousLineMap)) = [] := by
      rw [hA l, hnew]
    have hRl : opsAt l (List.flatMap previousLineMap (removeOpsFor lineMap)) = [] := by
      rw [hR l, hprev]
    rw [hsplit l, hAl, hRl]
    rfl

/-- C6 witness: moving the slot-1 bookmark from line 3 to line 7 fully clears
line 3, fully adds line 7, and touches no other line (line 5 gets zero
calls). -/
theorem applyLineHighlightsCM5_minimal_delta_witness :
    opsAt 3 (applyLineHighlightsCM5 [(7, ["1"])] [(3, ["1"])])
      = [HighlightOp.remove 3 "bookmark-line-highlight",
         HighlightOp.remove 3 (slotHighlightClass "1")] ∧
    opsAt 7 (applyLineHighlightsCM5 [(7, ["1"])] [(3, ["1"])])
      = [HighlightOp.add 7 "bookmark-line-highlight",
         HighlightOp.add 7 (slotHighlightClass "1")] ∧
    opsAt 5 (applyLineHighlightsCM5 [(7, ["1"])] [(3, ["1"])]) = [] := by
  have h := applyLineHighlightsCM5_minimal_delta [(7, ["1"])] [(3, ["1"])]
    (by decide) (by decide)
  refine ⟨?_, ?_, h.2.2.2.2 5 (by decide) (by decide)⟩
  · simpa using h.1 3 ["1"] (by decide) (by decide)
  · simpa using h.2.1 7 ["1"] (by decide) (by decide)

/-- C7 counterexample: with a render already in flight (one started, none
completed), a second request is absorbed, and once the in-flight render
completes nothing further is started: the total stays at one started and one
completed render, with nothing in flight — no additional render ever starts
or completes, contradicting the claimed "exactly one additional render". -/
theorem requestRender_coalesce_counterexample :
    (completeRender (requestRender
      { renderInFlight := true, rendersStarted := 1, rendersCompleted := 0 })).rendersStarted = 1 ∧
    (completeRender (requestRender
      { renderInFlight := true, rendersStarted := 1, rendersCompleted := 0 })).rendersCompleted = 1 ∧
    (completeRender (requestRender
      { renderInFlight := true, rendersStarted := 1, rendersCompleted := 0 })).renderInFlight = false := by
  decide

/-- C7 (amended): while a render is in flight a new request is a no-op on
the observer state — it is absorbed into the in-flight render, so no second
concurrent render starts and, after the in-flight render completes, no
additional render has been started or remains pending. -/
theorem requestRender_absorb_spec (s : ObserverState) (h : s.renderInFlight = true) :
    requestRender s = s ∧
    (completeRender (requestRender s)).rendersStarted = s.rendersStarted ∧
    (completeRender (requestRender s)).rendersCompleted = s.rendersCompleted + 1 ∧
    (completeRender (requestRender s)).renderInFlight = false := by
  simp [requestRender, completeRender, h]

/-- C7 witness: the amended statement at the concrete in-flight state. -/
theorem requestRender_absorb_spec_witness :
    requestRender { renderInFlight := true, rendersStarted := 1, rendersCompleted := 0 }
      = { renderInFlight := true, rendersStarted := 1, rendersCompleted := 0 } ∧
    (completeRender (requestRender
      { renderInFlight := true, rendersStarted := 1, rendersCompleted := 0 })).rendersStarted = 1 ∧
    (completeRender (requestRender
      { renderInFlight := true, rendersStarted := 1, rendersCompleted := 0 })).rendersCompleted = 0 + 1 ∧
    (completeRender (requestRender
      { renderInFlight := true, rendersStarted := 1, rendersCompleted := 0 })).renderInFlight = false :=
  requestRender_absorb_spec
    { renderInFlight := true, rendersStarted := 1, rendersCompleted := 0 } rfl

/-- C8 counterexample: the per-slot class is not derived as
`slot-highlight-<slot>`: for slot 1 the code produces
`bookmark-line-highlight-slot-1`. -/
theorem slotHighlightClass_counterexample :
    slotHighlightClass "1" ≠ "slot-highlight-" ++ "1" := by decide

/-- C8 (amended): the per-slot class string for slot `s` equals
`bookmark-line-highlight-slot-` followed by `s`, and a line carrying at
least one slot gets the generic `bookmark-line-highlight` class plus one
such per-slot class for each slot present. -/
theorem slotHighlightClass_spec :
    (∀ slot, slotHighlightClass slot = "bookmark-line-highlight-slot-" ++ slot) ∧
    (∀ (l : Nat) (slots : List String),
      applyLineHighlightsCM5 [(l, slots)] []
        = HighlightOp.add l "bookmark-line-highlight" ::
            slots.map fun s => HighlightOp.add l (slotHighlightClass s)) := by
  refine ⟨fun _ => rfl, fun l slots => ?_⟩
  have h := addOpsFor_of_none [] l slots rfl
  simp [applyLineHighlightsCM5, h]

/-- C10: the preview is `none` exactly when the file cannot be located or
the content read throws; when the file is found and the read succeeds a line
index past the last line (or negative) yields `some ""` (a blank-line
preview, never `null`), and an in-range index yields the trimmed line. -/
theorem getBookmarkPreview_spec (entry : BookmarkEntry) (fileExists : String → Bool)
    (readFile : String → Option String) :
    (getBookmarkPreview entry fileExists readFile = none ↔
      (fileExists entry.file = false ∨ readFile entry.file = none)) ∧
    (∀ content, fileExists entry.file = true → readFile entry.file = some content →
      ((splitLines content).length ≤ entry.line.toNat ∨ entry.line < 0) →
      getBookmarkPreview entry fileExists readFile = some "") ∧
    (∀ content, fileExists entry.file = true → readFile entry.file = some content →
      0 ≤ entry.line →
      ∀ h : entry.line.toNat < (splitLines content).length,
      getBookmarkPreview entry fileExists readFile
        = some (trimString ((splitLines content).get ⟨entry.line.toNat, h⟩))) := by
  by_cases hf : fileExists entry.file
  · cases hr : readFile entry.file with
    | none =>
      refine ⟨?_, ?_, ?_⟩
      · simp [getBookmarkPreview, hf, hr]
      · intro content _ hc
        simp [hr] at hc
      · intro content _ hc
        simp [hr] at hc
    | some content =>
      refine ⟨?_, ?_, ?_⟩
      · simp [getBookmarkPreview, hf, hr]
      · intro c hfe hc hpast
        obtain rfl : content = c := by simpa [hr] using hc
        by_cases hneg : entry.line < 0
        · simp [getBookmarkPreview, hf, hr, hneg]
        · have hlen : (splitLines content).length ≤ entry.line.toNat := by
            rcases hpast with h | h
            · exact h
            · exact absurd h hneg
          simp [getBookmarkPreview, hf, hr, hneg, List.getElem?_eq_none hlen]
      · intro c hfe hc hnn h
        obtain rfl : content = c := by simpa [hr] using hc
        have hneg : ¬ entry.line < 0 := by omega
        simp [getBookmarkPreview, hf, hr, hneg, List.getElem?_eq_getElem h,
          List.get_eq_getElem]
  · simp only [Bool.not_eq_true] at hf
    refine ⟨?_, ?_, ?_⟩
    · simp [getBookmarkPreview, hf]
    · intro content hfe
      rw [hf] at hfe
      exact absurd hfe (by simp)
    · intro content hfe
      rw [hf] at hfe
      exact absurd hfe (by simp)

/-- C10 witness: line index 5 on a two-line file yields the blank preview
`some ""`, not `none`. -/
theorem getBookmarkPreview_spec_witness :
    getBookmarkPreview ⟨"a.md", 5, 0⟩ (fun s => s == "a.md") (fun _ => some "x\ny")
      = some "" := by
  have h := getBookmarkPreview_spec ⟨"a.md", 5, 0⟩ (fun s => s == "a.md")
    (fun _ => some "x\ny")
  exact h.2.1 "x\ny" (by decide) rfl (by decide)

end BookmarkPlugin
